import Mathlib

/-!
Verification of the online-statistics and sliding-window anomaly-detection
pipeline of the LearnAI-ADPM labs.

The development embeds, over exact rational arithmetic:
  * the deployed scoring entrypoint (`score.py`: `init` / `run`), a
    truncated-Welford running average behind a request boundary;
  * the online exponential running average `run_avg` of the model-development
    notebook, together with the pandas-style batch exponential-weighted mean
    it is compared against;
  * the windowed detectors `detect_ts_online` (no exception handling) and
    `eval` (catches the domain error of the batch oracle), both of which
    hand the oracle the slice `df_smooth.iloc[max(0, stop - window_size) : stop]`;
  * the resampling loop of the evaluation harness `sample_run` that searches
    for an anomaly timestamp inside the usable range.

Timestamps and sensor values are rationals; the batch oracle is an explicit
function parameter returning either a domain error or the ordered list of
flagged timestamps; wall-clock measurement is an opaque parameter `elapsed`.
-/

namespace ADPM

/-! ## The deployed scorer (`score.py` of the deployment notebook) -/

/-- Module-level mutable state of `score.py`: `running_avg` and `curr_n`. -/
structure ScoreState where
  running_avg : ℚ
  curr_n : ℕ
deriving DecidableEq

/-- `init()` of `score.py`: `running_avg = 0.0; curr_n = 0`. -/
def init : ScoreState := ⟨0, 0⟩

/-- One call of `run(raw_data)` of `score.py` with the effective window
length `n_arg` (the original script hardcodes `n_arg = 5`, the modified one
reads it from the payload).  Follows the source order:
`curr_n += 1; n = min(curr_n, n_arg); running_avg += (value - running_avg)/n`,
returning the new running average.  `none` models the `ZeroDivisionError`
Python raises when `n = 0`. -/
def run (st : ScoreState) (value : ℚ) (n_arg : ℤ) : Option (ℚ × ScoreState) :=
  let curr_n : ℕ := st.curr_n + 1
  let n : ℤ := min (curr_n : ℤ) n_arg
  if n = 0 then none
  else
    let running_avg := st.running_avg + (value - st.running_avg) / (n : ℚ)
    some (running_avg, ⟨running_avg, curr_n⟩)

/-- Request payload of the scoring entrypoint: a `value` and an optional
effective window length `n`. -/
structure Payload where
  value : ℚ
  n : Option ℤ

/-- The scoring entrypoint across the two shipped `score.py` variants: when
the payload carries no `n`, the original script applies the default
`n_arg = 5`; when it does, the modified script uses the supplied `n`. -/
def runPayload (st : ScoreState) (p : Payload) : Option (ℚ × ScoreState) :=
  run st p.value (p.n.getD 5)

/-- Feeding a sequence of values through `run`, collecting the returned
smoothed values; `none` as soon as any call raises. -/
def scoreOutputs (st : ScoreState) (vs : List ℚ) (n_arg : ℤ) : Option (List ℚ) :=
  match vs with
  | [] => some []
  | v :: vs =>
    match run st v n_arg with
    | none => none
    | some (o, st') =>
      match scoreOutputs st' vs n_arg with
      | none => none
      | some os => some (o :: os)

/-! ## Online running average of the model-development notebook -/

/-- Loop body of `run_avg`: at 0-based index `r ≥ 1`,
`curr_com = min(com, r)` and
`rm_o[r] = rm_o[r-1] + (ts[r] - rm_o[r-1]) / (curr_com + 1)`. -/
def runAvgGo (com : ℚ) (prev : ℚ) (r : ℕ) : List ℚ → List ℚ
  | [] => []
  | x :: xs =>
    let curr_com : ℚ := min com (r : ℚ)
    let nxt := prev + (x - prev) / (curr_com + 1)
    nxt :: runAvgGo com nxt (r + 1) xs

/-- Modelled from the spec: the notebook cell for `run_avg` is a hands-on-lab
stub whose two update lines read `-1 # enter your solution here`, and the
solution file `solutions/running_avg.py` it loads is not part of the sources.
Spec section 4.1: for the first observation `avg := value`; for observation
index `r ≥ 1`, `effective_c = min(c, r)` and
`avg := avg + (value - avg) / (effective_c + 1)`. -/
def run_avg (ts : List ℚ) (com : ℚ) : List ℚ :=
  match ts with
  | [] => []
  | x :: xs => x :: runAvgGo com x 1 xs

/-- Loop body of the batch exponential-weighted mean: with decay
`β = com / (com + 1)` the weighted numerator and denominator advance as
`num := x + β num`, `den := 1 + β den` and the mean at each index is
`num / den`. -/
def ewmGo (β : ℚ) (num den : ℚ) : List ℚ → List ℚ
  | [] => []
  | x :: xs =>
    let num' := x + β * num
    let den' := 1 + β * den
    num' / den' :: ewmGo β num' den' xs

/-- The batch reference the notebook compares `run_avg` against:
`df_s[value].ewm(com=com).mean()`, the pandas exponential-weighted mean with
its default adjusted weighting, i.e. index `t` holds
`(Σ_{i≤t} β^i x_{t-i}) / (Σ_{i≤t} β^i)` with `β = com / (com + 1)`. -/
def ewm_mean (xs : List ℚ) (com : ℚ) : List ℚ :=
  let β := com / (com + 1)
  match xs with
  | [] => []
  | x :: xs => x :: ewmGo β x 1 xs

/-! ## The windowed detectors -/

/-- The slice both detectors hand to the oracle:
`start_index = max(0, stop - window_size)` and
`df_win = df_smooth.iloc[start_index:stop, :]` (the end index is excluded by
the Python slice; natural-number subtraction is the `max(0, ·)`). -/
def window (df_smooth : List (ℚ × ℚ)) (window_size stop : ℕ) : List (ℚ × ℚ) :=
  (df_smooth.take stop).drop (stop - window_size)

/-- `detect_ts_online(df_smooth, window_size, stop)` of the model-development
notebook: runs the batch oracle on `window df_smooth window_size stop` with no
exception handling, then reports an anomaly exactly when the last flagged
timestamp equals the timestamp of the last row of the window.  The oracle is
a parameter returning either a domain error or the ordered list of flagged
timestamps; `elapsed` stands for the measured wall-clock oracle time.
`Except.error` models an uncaught Python exception: a domain error of the
oracle propagates, and an empty window with a nonempty flag list would make
`df_win[timestamp].tail(1).values[0]` raise an IndexError. -/
def detect_ts_online (oracle : List (ℚ × ℚ) → Except Unit (List ℚ)) (elapsed : ℚ)
    (df_smooth : List (ℚ × ℚ)) (window_size stop : ℕ) : Except Unit (Bool × ℚ) :=
  let df_win := window df_smooth window_size stop
  match oracle df_win with
  | Except.error e => Except.error e
  | Except.ok anoms =>
    if 0 < anoms.length then
      match df_win.getLast? with
      | none => Except.error ()
      | some lastObs =>
        match anoms.getLast? with
        | none => Except.error ()
        | some t => Except.ok (decide (lastObs.1 = t), elapsed)
    else Except.ok (false, elapsed)

/-- `eval(df_smooth, window_size, stop)` of the second notebook variant: same
shape as `detect_ts_online`, except `run_time` starts at `-1` and the oracle
call sits in a `try: ... except ValueError: pass` block, so a domain error of
the oracle yields `(False, -1)` instead of propagating.  The IndexError of
the empty-window corner is outside the caught class and still escapes. -/
def eval (oracle : List (ℚ × ℚ) → Except Unit (List ℚ)) (elapsed : ℚ)
    (df_smooth : List (ℚ × ℚ)) (window_size stop : ℕ) : Except Unit (Bool × ℚ) :=
  let df_win := window df_smooth window_size stop
  match oracle df_win with
  | Except.error _ => Except.ok (false, -1)
  | Except.ok anoms =>
    if 0 < anoms.length then
      match df_win.getLast? with
      | none => Except.error ()
      | some lastObs =>
        match anoms.getLast? with
        | none => Except.error ()
        | some t => Except.ok (decide (lastObs.1 = t), elapsed)
    else Except.ok (false, elapsed)

/-! ## The resampling loop of `sample_run` -/

/-- Outcome of the anomaly-timestamp selection of one `sample_run` trial. -/
inductive TrialOutcome where
  | crash : TrialOutcome
  | earlyReturn (score run_time : ℚ) : TrialOutcome
  | picked (t : ℚ) : TrialOutcome
deriving DecidableEq

/-- The `while anoms_timestamps[0] < timestamps[0]` loop of `sample_run`,
entered at counter `k` with `fuel` remaining reshuffles budgeted.  `ls k` is
the anomaly-timestamp array after the k-th shuffle, `t0` is `timestamps[0]`,
the first timestamp of the usable range.  Indexing an empty array raises an
IndexError (`crash`); once `counter > 100` the trial returns the sentinel
`0.0, 9999.0`.  The fuel-exhaustion branch is unreachable whenever
`fuel + k ≥ 101`, since the counter check fires first. -/
def selectLoop (ls : ℕ → List ℚ) (t0 : ℚ) (k : ℕ) (fuel : ℕ) : TrialOutcome :=
  match (ls k).head? with
  | none => TrialOutcome.crash
  | some h =>
    if h < t0 then
      if 100 < k then TrialOutcome.earlyReturn 0 9999
      else
        match fuel with
        | 0 => TrialOutcome.crash
        | fuel' + 1 => selectLoop ls t0 (k + 1) fuel'
    else TrialOutcome.picked h

/-- The anomaly-biased branch of a `sample_run` trial: after the initial
shuffle (`ls 0`), run the retry loop from counter `0`.  Fuel `102` is enough
for the counter guard to fire on its own. -/
def selectAnomTs (ls : ℕ → List ℚ) (t0 : ℚ) : TrialOutcome :=
  selectLoop ls t0 0 102

/-! ## Helper lemmas -/

/-- The last element of a list is a member. -/
theorem getLast?_mem_self {l : List ℚ} {a : ℚ} (h : l.getLast? = some a) : a ∈ l :=
  (List.dropLast_append_getLast? a h) ▸ List.mem_append.2 (Or.inr (by simp))

/-- In a nondecreasing list every member is at most the last element. -/
theorem le_getLast?_of_pairwise {l : List ℚ} (h : l.Pairwise (· ≤ ·)) {x : ℚ}
    (hx : x ∈ l) {a : ℚ} (ha : l.getLast? = some a) : x ≤ a := by
  have hl : l.dropLast ++ [a] = l := List.dropLast_append_getLast? a ha
  rw [← hl] at hx h
  rw [List.pairwise_append] at h
  rcases List.mem_append.1 hx with hx | hx
  · exact h.2.2 x hx a (by simp)
  · simp only [List.mem_singleton] at hx
    exact hx.le

/-- If every shuffle of the anomaly timestamps keeps a nonempty array whose
entries all lie below `t0`, the retry loop returns the sentinel as soon as the
counter budget `k + fuel` reaches the bound. -/
theorem selectLoop_sentinel_of_all_below (ls : ℕ → List ℚ) (t0 : ℚ)
    (hne : ls 0 ≠ []) (hperm : ∀ i, (ls i).Perm (ls 0))
    (hall : ∀ t ∈ ls 0, t < t0) :
    ∀ fuel k, 101 ≤ k + fuel → selectLoop ls t0 k fuel = TrialOutcome.earlyReturn 0 9999 := by
  have hhead : ∀ k, ∃ h, (ls k).head? = some h ∧ h < t0 := by
    intro k
    cases hlk : ls k with
    | nil =>
      have : (ls 0).Perm [] := (hlk ▸ hperm k).symm
      exact absurd (List.perm_nil.mp this) hne
    | cons a l =>
      refine ⟨a, rfl, hall a ?_⟩
      exact (hperm k).mem_iff.mp (by simp [hlk])
  intro fuel
  induction fuel with
  | zero =>
    intro k hk
    obtain ⟨h, hh, hlt⟩ := hhead k
    simp only [selectLoop, hh, if_pos hlt, if_pos (by omega : 100 < k)]
  | succ fuel ih =>
    intro k hk
    obtain ⟨h, hh, hlt⟩ := hhead k
    by_cases hkk : 100 < k
    · simp only [selectLoop, hh, if_pos hlt, if_pos hkk]
    · simp only [selectLoop, hh, if_pos hlt, if_neg hkk]
      exact ih (k + 1) (by omega)

/-! ## Claim theorems -/

/-- Claim C2, counterexample: feeding `[1, 2, 3, 2, 1]` with `n = 5` into the
fixed-window scorer does not produce the claimed outputs
`1.0, 1.5, 2.0, 1.875, 1.7`; the fourth update starts from average `2.0` and
receives the value `2.0`, so it must return `2.0`, not `1.875`. -/
theorem scenarioA_claimed_outputs_false :
    scoreOutputs init [1, 2, 3, 2, 1] 5 ≠ some [1, 3/2, 2, 15/8, 17/10] := by
  norm_num [scoreOutputs, run, init]

/-- Claim C2, amended: feeding `[1.0, 2.0, 3.0, 2.0, 1.0]` one at a time into
the fixed-window scorer (init, then five run calls) with `n = 5` returns the
running averages `1.0, 1.5, 2.0, 2.0, 1.8` in that order. -/
theorem scenarioA_outputs :
    scoreOutputs init [1, 2, 3, 2, 1] 5 = some [1, 3/2, 2, 2, 9/5] := by
  norm_num [scoreOutputs, run, init]

/-- Claim C4, counterexample: when the oracle raises a domain error, `eval`
returns run time `-1` — the sentinel initial value, which is negative and
hence not an elapsed duration — rather than the elapsed time up to the
failure point. -/
theorem eval_failure_time_cex :
    ADPM.eval (fun _ => Except.error ()) 5 [(0, 1), (1, 2)] 2 2 = Except.ok (false, -1) ∧
      (-1 : ℚ) < 0 :=
  ⟨rfl, by norm_num⟩

/-- Claim C4, amended: if the oracle raises a domain error on the current
window, `eval` catches it, returns `is_anomaly = false` together with the
sentinel run time `-1` (its initial value; the elapsed time is recorded only
on success), and never propagates the error to the caller. -/
theorem eval_catches_domain_error (oracle : List (ℚ × ℚ) → Except Unit (List ℚ))
    (elapsed : ℚ) (df : List (ℚ × ℚ)) (w stop : ℕ) (e : Unit)
    (h : oracle (window df w stop) = Except.error e) :
    ADPM.eval oracle elapsed df w stop = Except.ok (false, -1) := by
  simp only [ADPM.eval, h]

/-- Witness for `eval_catches_domain_error` at a concrete failing oracle. -/
theorem eval_catches_domain_error_witness :
    ADPM.eval (fun _ => Except.error ()) 7 [(0, 1)] 1 1 = Except.ok (false, -1) :=
  eval_catches_domain_error (fun _ => Except.error ()) 7 [(0, 1)] 1 1 () rfl

/-- Claim C8, counterexample: if the selected series has no anomaly
timestamps at all — a case in which no qualifying anomaly timestamp exists
within the usable range — the loop head access `anoms_timestamps[0]` raises
an IndexError instead of returning the sentinel pair. -/
theorem sample_run_empty_anoms_crashes :
    selectAnomTs (fun _ => []) 0 = TrialOutcome.crash ∧
      TrialOutcome.crash ≠ TrialOutcome.earlyReturn 0 9999 :=
  ⟨rfl, by simp⟩

/-- Claim C8, amended: whenever the anomaly-biased branch has a nonempty
anomaly-timestamp array none of whose entries lies in the usable range
(every entry below `timestamps[0]`, under every reshuffle), `sample_run`
stops after the finite, explicit retry bound (`counter > 100`) and fails
gracefully by returning the sentinel pair `(0.0, 9999.0)` without raising;
with an empty array the head access raises IndexError instead. -/
theorem sample_run_retry_bound_sentinel (ls : ℕ → List ℚ) (t0 : ℚ)
    (hne : ls 0 ≠ []) (hperm : ∀ i, (ls i).Perm (ls 0))
    (hall : ∀ t ∈ ls 0, t < t0) :
    selectAnomTs ls t0 = TrialOutcome.earlyReturn 0 9999 :=
  selectLoop_sentinel_of_all_below ls t0 hne hperm hall 102 0 (by norm_num)

/-- Witness for `sample_run_retry_bound_sentinel` at a concrete series. -/
theorem sample_run_retry_bound_sentinel_witness :
    selectAnomTs (fun _ => [5]) 10 = TrialOutcome.earlyReturn 0 9999 :=
  sample_run_retry_bound_sentinel (fun _ => [5]) 10 (by simp)
    (fun _ => List.Perm.refl _) (by norm_num)

/-- Claim C9: the window handed to the oracle always has length at most `W`,
and whenever more than `W` observations precede the evaluation point it has
length exactly `W` and consists of exactly the last `W` preceding
observations in chronological order. -/
theorem window_bounded_memory :
    (∀ (df : List (ℚ × ℚ)) (w stop : ℕ), (window df w stop).length ≤ w) ∧
    (∀ (df : List (ℚ × ℚ)) (w stop : ℕ), w < stop → stop ≤ df.length →
      (window df w stop).length = w ∧
      ∀ i, i < w → (window df w stop)[i]? = df[stop - w + i]?) := by
  constructor
  · intro df w stop
    simp only [window, List.length_drop, List.length_take]
    omega
  · intro df w stop h1 h2
    constructor
    · simp only [window, List.length_drop, List.length_take]
      omega
    · intro i hi
      simp only [window]
      rw [List.getElem?_drop, List.getElem?_take]
      have hlt : stop - w + i < stop := by omega
      simp [hlt]

/-- Witness for `window_bounded_memory` on a concrete overfull buffer. -/
theorem window_bounded_memory_witness :
    (window [(0, 1), (1, 2), (2, 3)] 2 3).length = 2 :=
  (window_bounded_memory.2 [(0, 1), (1, 2), (2, 3)] 2 3 (by norm_num) (by norm_num)).1

/-- Claim C3, counterexample: with the smoothed series
`[(0, 10), (1, 20), (2, 30)]`, window size `2` and candidate index `2`, the
window handed to the oracle ends with the row `(1, 20)` — not the candidate
row `(2, 30)` — because the Python slice `iloc[start:stop]` excludes `stop`. -/
theorem window_excludes_candidate_cex :
    (window [(0, 10), (1, 20), (2, 30)] 2 2).getLast? = some (1, 20) ∧
      ([(0, 10), (1, 20), (2, 30)] : List (ℚ × ℚ))[2]? = some (2, 30) ∧
      ((1, 20) : ℚ × ℚ) ≠ (2, 30) :=
  ⟨rfl, rfl, by norm_num⟩

/-- Claim C3, amended: for every trial the harness invokes the windowed
detector on the trailing window of up to `window_size` smoothed points
ending just before the index of the candidate timestamp (the slice excludes
the candidate), so the last element of the window the oracle evaluates is
the observation at the index immediately preceding the candidate. -/
theorem window_last_precedes_candidate (df : List (ℚ × ℚ)) (w idx : ℕ)
    (h1 : 1 ≤ idx) (h2 : idx ≤ df.length) (h3 : 1 ≤ w) :
    (window df w idx).getLast? = df[idx - 1]? := by
  have hlen : (window df w idx).length = min w idx := by
    simp only [window, List.length_drop, List.length_take]
    omega
  rw [List.getLast?_eq_getElem?, hlen]
  simp only [window]
  rw [List.getElem?_drop, List.getElem?_take]
  have hlt : idx - w + (min w idx - 1) < idx := by omega
  rw [if_pos hlt]
  congr 1
  omega

/-- Witness for `window_last_precedes_candidate` at a concrete slice. -/
theorem window_last_precedes_candidate_witness :
    (window [(0, 10), (1, 20)] 1 2).getLast? = ([(0, 10), (1, 20)] : List (ℚ × ℚ))[1]? :=
  window_last_precedes_candidate [(0, 10), (1, 20)] 1 2 (by norm_num) (by norm_num) (by norm_num)

/-- Claim C5: under the oracle contract — the flagged timestamps come back in
nondecreasing order and are drawn from the window, whose last row carries the
maximal timestamp — `eval` reports an anomaly precisely when the flagged set
contains the timestamp of the last element of the snapshot; flags on interior
points alone never produce a positive verdict. -/
theorem eval_flags_last_iff (oracle : List (ℚ × ℚ) → Except Unit (List ℚ))
    (elapsed : ℚ) (df : List (ℚ × ℚ)) (w stop : ℕ) (anoms : List ℚ) (lastObs : ℚ × ℚ)
    (hor : oracle (window df w stop) = Except.ok anoms)
    (hsort : anoms.Pairwise (· ≤ ·))
    (hsub : ∀ t ∈ anoms, t ∈ (window df w stop).map Prod.fst)
    (hlast : (window df w stop).getLast? = some lastObs)
    (hmax : ∀ p ∈ window df w stop, p.1 ≤ lastObs.1) :
    ADPM.eval oracle elapsed df w stop = Except.ok (decide (lastObs.1 ∈ anoms), elapsed) := by
  simp only [ADPM.eval, hor]
  cases anoms with
  | nil => simp
  | cons a as =>
    obtain ⟨t, ht⟩ : ∃ t, (a :: as).getLast? = some t :=
      ⟨(a :: as).getLast (by simp), List.getLast?_eq_getLast_of_ne_nil (by simp)⟩
    simp only [List.length_cons, Nat.zero_lt_succ, if_pos, hlast, ht]
    congr 2
    rw [decide_eq_decide]
    constructor
    · intro he
      exact he ▸ getLast?_mem_self ht
    · intro hm
      have h1 : lastObs.1 ≤ t := le_getLast?_of_pairwise hsort hm ht
      have h2 : t ≤ lastObs.1 := by
        obtain ⟨p, hp, hpt⟩ := List.mem_map.1 (hsub t (getLast?_mem_self ht))
        exact hpt ▸ hmax p hp
      exact le_antisymm h1 h2

/-- Witness for `eval_flags_last_iff` at a concrete flagged window. -/
theorem eval_flags_last_iff_witness :
    ADPM.eval (fun _ => Except.ok [1]) 3 [(0, 5), (1, 6)] 2 2 =
      Except.ok (decide ((((1 : ℚ), (6 : ℚ)) : ℚ × ℚ).1 ∈ ([1] : List ℚ)), 3) :=
  eval_flags_last_iff (fun _ => Except.ok [1]) 3 [(0, 5), (1, 6)] 2 2 [1] (1, 6)
    rfl (by simp) (by intro t ht; simp only [List.mem_singleton] at ht; subst ht; simp [window])
    rfl (by intro p hp; simp only [window] at hp; fin_cases hp <;> norm_num)

/-- Claim C6: every call of the scoring entrypoint with payload `{value, n?}`
— `n` optional, defaulting to `5` — performs exactly one truncated-Welford
step, `n_eff = min(curr_n + 1, n)`, `avg := avg + (value - avg)/n_eff`,
`curr_n := curr_n + 1`, and returns the new average as the smoothed value. -/
theorem run_welford_step (st : ScoreState) (p : Payload) (h : 1 ≤ p.n.getD 5) :
    runPayload st p =
      some (st.running_avg +
          (p.value - st.running_avg) / ((min ((st.curr_n : ℤ) + 1) (p.n.getD 5) : ℤ) : ℚ),
        ⟨st.running_avg +
          (p.value - st.running_avg) / ((min ((st.curr_n : ℤ) + 1) (p.n.getD 5) : ℤ) : ℚ),
          st.curr_n + 1⟩) := by
  have hne : min ((st.curr_n : ℤ) + 1) (p.n.getD 5) ≠ 0 := by
    have h1 : (1 : ℤ) ≤ min ((st.curr_n : ℤ) + 1) (p.n.getD 5) :=
      le_min (by omega) h
    omega
  simp only [runPayload, run, Nat.cast_add, Nat.cast_one]
  rw [if_neg hne]

/-- Witness for `run_welford_step`: the first call after `init` with value 7
and no `n` in the payload returns 7. -/
theorem run_welford_step_witness :
    runPayload init ⟨7, none⟩ = some (7, ⟨7, 1⟩) := by
  have h := run_welford_step init ⟨7, none⟩ (by norm_num)
  norm_num [init, min_def] at h
  exact h

/-- Generalized running-mean invariant for the scorer: entering state
`⟨B, c⟩` with `1 ≤ c` and enough headroom `c + length ≤ n`, each update `i`
returns `(B·c + Σ first i+1 values) / (c + i + 1)`. -/
theorem scoreOutputs_running_mean_aux (n : ℤ) :
    ∀ (vs : List ℚ) (c : ℕ) (B : ℚ), 1 ≤ c → (c : ℤ) + vs.length ≤ n →
      ∃ os, scoreOutputs ⟨B, c⟩ vs n = some os ∧
        ∀ i, i < vs.length →
          os[i]? = some ((B * c + (vs.take (i + 1)).sum) / ((c : ℚ) + i + 1)) := by
  intro vs
  induction vs with
  | nil =>
    intro c B _ _
    exact ⟨[], rfl, by simp⟩
  | cons v vs ih =>
    intro c B h1 h2
    simp only [List.length_cons] at h2
    have hmin : min (((c + 1 : ℕ) : ℤ)) n = ((c + 1 : ℕ) : ℤ) := by
      apply min_eq_left
      push_cast at h2 ⊢
      omega
    have hc1 : ((c : ℚ) + 1) ≠ 0 := by positivity
    have hB' : B + (v - B) / (((c + 1 : ℕ) : ℤ) : ℚ) = (B * c + v) / ((c : ℚ) + 1) := by
      push_cast
      field_simp
      ring
    obtain ⟨os', hos', hspec⟩ :=
      ih (c + 1) ((B * c + v) / ((c : ℚ) + 1)) (by omega) (by push_cast at h2 ⊢; omega)
    refine ⟨(B * c + v) / ((c : ℚ) + 1) :: os', ?_, ?_⟩
    · simp only [scoreOutputs, run, hmin]
      rw [if_neg (by push_cast; omega)]
      simp only [hB', hos']
    · intro i hi
      cases i with
      | zero => simp
      | succ j =>
        simp only [List.length_cons, Nat.succ_lt_succ_iff] at hi
        have := hspec j hi
        simp only [List.getElem?_cons_succ, this, List.take_succ_cons, List.sum_cons]
        congr 1
        push_cast
        rw [div_mul_cancel₀ _ hc1]
        ring_nf

/-- Claim C10: for every `k` with `1 ≤ k ≤ n`, after `init` and `k` calls of
`run` with values `v₁ … v_k`, the returned smoothed value is the exact
arithmetic mean `(v₁ + … + v_k)/k`, independently of the initial running
average — in particular the first call returns `v₁` itself. -/
theorem score_returns_running_mean (a0 : ℚ) (vs : List ℚ) (n : ℤ)
    (hne : vs ≠ []) (hlen : (vs.length : ℤ) ≤ n) :
    ∃ os, scoreOutputs ⟨a0, 0⟩ vs n = some os ∧
      ∀ i, i < vs.length → os[i]? = some ((vs.take (i + 1)).sum / ((i : ℚ) + 1)) := by
  cases vs with
  | nil => exact absurd rfl hne
  | cons v vs =>
    simp only [List.length_cons] at hlen
    have hn1 : min ((1 : ℕ) : ℤ) n = ((1 : ℕ) : ℤ) := by
      apply min_eq_left
      push_cast at hlen ⊢
      omega
    obtain ⟨os', hos', hspec⟩ :=
      scoreOutputs_running_mean_aux n vs 1 v le_rfl (by push_cast at hlen ⊢; omega)
    have hfirst : a0 + (v - a0) / ((((1 : ℕ) : ℤ)) : ℚ) = v := by
      push_cast
      ring
    refine ⟨v :: os', ?_, ?_⟩
    · simp only [scoreOutputs, run, hn1]
      rw [if_neg (by norm_num)]
      simp only [hfirst, hos']
    · intro i hi
      cases i with
      | zero => norm_num
      | succ j =>
        simp only [List.length_cons, Nat.succ_lt_succ_iff] at hi
        have := hspec j hi
        simp only [List.getElem?_cons_succ, this, List.take_succ_cons, List.sum_cons]
        congr 1
        push_cast
        ring_nf

/-- Witness for `score_returns_running_mean` on a concrete sequence. -/
theorem score_returns_running_mean_witness :
    ∃ os, scoreOutputs ⟨42, 0⟩ [3, 5] 5 = some os ∧
      ∀ i, i < ([3, 5] : List ℚ).length →
        os[i]? = some ((([3, 5] : List ℚ).take (i + 1)).sum / ((i : ℚ) + 1)) :=
  score_returns_running_mean 42 [3, 5] 5 (by simp) (by norm_num)

/-- Head entry of the `run_avg` loop on a nonempty tail. -/
theorem runAvgGo_getElem_zero (com prev : ℚ) (r : ℕ) (y : ℚ) (ys : List ℚ) :
    (runAvgGo com prev r (y :: ys))[0]? =
      some (prev + (y - prev) / (min com (r : ℚ) + 1)) := by
  simp [runAvgGo]

/-- Later entries of the `run_avg` loop step into the recursive call. -/
theorem runAvgGo_getElem_succ (com prev : ℚ) (r : ℕ) (y : ℚ) (ys : List ℚ) (i : ℕ) :
    (runAvgGo com prev r (y :: ys))[i + 1]? =
      (runAvgGo com (prev + (y - prev) / (min com (r : ℚ) + 1)) (r + 1) ys)[i]? := by
  simp [runAvgGo]

/-- Consecutive entries of the `run_avg` loop satisfy the update recurrence
with effective center of mass `min com (r + i + 1)` at relative index
`i + 1`. -/
theorem runAvgGo_chain (com : ℚ) :
    ∀ (xs : List ℚ) (prev : ℚ) (r i : ℕ) (a x : ℚ),
      (runAvgGo com prev r xs)[i]? = some a → xs[i + 1]? = some x →
      (runAvgGo com prev r xs)[i + 1]? =
        some (a + (x - a) / (min com ((r : ℚ) + i + 1) + 1)) := by
  intro xs
  induction xs with
  | nil =>
    intro prev r i a x ha _
    simp [runAvgGo] at ha
  | cons y ys ih =>
    intro prev r i a x ha hx
    cases i with
    | zero =>
      rw [runAvgGo_getElem_zero, Option.some.injEq] at ha
      rw [List.getElem?_cons_succ] at hx
      cases ys with
      | nil => simp at hx
      | cons z zs =>
        rw [List.getElem?_cons_zero, Option.some.injEq] at hx
        rw [runAvgGo_getElem_succ, runAvgGo_getElem_zero, ha, hx]
        have harg : (((r + 1 : ℕ)) : ℚ) = (r : ℚ) + (0 : ℕ) + 1 := by push_cast; ring
        rw [harg]
    | succ j =>
      rw [runAvgGo_getElem_succ] at ha
      rw [List.getElem?_cons_succ] at hx
      rw [runAvgGo_getElem_succ, ih _ (r + 1) j a x ha hx]
      have harg : (((r + 1 : ℕ)) : ℚ) + (j : ℚ) + 1 = (r : ℚ) + ((j + 1 : ℕ) : ℚ) + 1 := by
        push_cast
        ring
      rw [harg]

/-- Claim C7: `run_avg` starts from the first value and at every later index
`r` applies `avg := avg + (value - avg) / (min(c, r) + 1)`; in particular
with center of mass `c = 1` it maps `[0, 10, 0]` to `[0, 5, 2.5]`. -/
theorem run_avg_recurrence :
    (∀ (ts : List ℚ) (com x : ℚ), ts.head? = some x → (run_avg ts com).head? = some x) ∧
    (∀ (ts : List ℚ) (com : ℚ) (r : ℕ) (a x : ℚ), 1 ≤ r →
      (run_avg ts com)[r - 1]? = some a → ts[r]? = some x →
      (run_avg ts com)[r]? = some (a + (x - a) / (min com (r : ℚ) + 1))) ∧
    run_avg [0, 10, 0] 1 = [0, 5, 5/2] := by
  refine ⟨?_, ?_, by norm_num [run_avg, runAvgGo]⟩
  · intro ts com x h
    cases ts with
    | nil => simp at h
    | cons t ts' =>
      simp only [List.head?_cons, Option.some.injEq] at h
      simp [run_avg, h]
  · intro ts com r a x hr ha hx
    cases ts with
    | nil => simp at hx
    | cons t ts' =>
      cases r with
      | zero => omega
      | succ j =>
        simp only [run_avg, Nat.add_sub_cancel, List.getElem?_cons_succ] at ha hx ⊢
        cases j with
        | zero =>
          simp only [List.getElem?_cons_zero, Option.some.injEq] at ha
          cases ts' with
          | nil => simp at hx
          | cons u us =>
            simp only [List.getElem?_cons_zero, Option.some.injEq] at hx
            rw [runAvgGo_getElem_zero, ha, hx]
            try rfl
            try norm_num
        | succ k =>
          simp only [List.getElem?_cons_succ] at ha
          have hchain := runAvgGo_chain com ts' t 1 k a x ha hx
          rw [hchain]
          have harg : ((1 : ℕ) : ℚ) + (k : ℚ) + 1 = ((k + 1 + 1 : ℕ) : ℚ) := by
            push_cast
            ring
          rw [harg]

/-- Witness for `run_avg_recurrence`: the recurrence applied at index 1 of
the scenario-B sequence. -/
theorem run_avg_recurrence_witness :
    (run_avg [0, 10, 0] 1)[1]? =
      some (0 + (10 - 0) / (min (1 : ℚ) ((1 : ℕ) : ℚ) + 1)) :=
  run_avg_recurrence.2.1 [0, 10, 0] 1 1 0 10 le_rfl rfl rfl

/-- With center of mass zero the online loop copies the input stream. -/
theorem runAvgGo_com_zero :
    ∀ (xs : List ℚ) (prev : ℚ) (r : ℕ), 1 ≤ r → runAvgGo 0 prev r xs = xs := by
  intro xs
  induction xs with
  | nil => intro prev r _; rfl
  | cons y ys ih =>
    intro prev r hr
    have hmin : min (0 : ℚ) ((r : ℕ) : ℚ) = 0 :=
      min_eq_left (by positivity)
    simp only [runAvgGo, hmin]
    norm_num
    exact ih y (r + 1) (by omega)

/-- With decay zero the batch loop copies the input stream. -/
theorem ewmGo_beta_zero :
    ∀ (xs : List ℚ) (num den : ℚ), ewmGo 0 num den xs = xs := by
  intro xs
  induction xs with
  | nil => intro num den; rfl
  | cons y ys ih =>
    intro num den
    simp only [ewmGo]
    norm_num
    exact ih y 1

/-- Claim C1, counterexample: with center of mass `c = 1` and inputs
`[0, 10]`, the online update gives `5` at index 1 while the batch
exponential-weighted mean gives `20/3`; the gap `5/3` exceeds any
floating-point tolerance such as `1e-9`, so exact (or tolerance) parity at
every index beyond the first fails. -/
theorem online_batch_parity_cex :
    (run_avg [0, 10] 1)[1]? = some 5 ∧ (ewm_mean [0, 10] 1)[1]? = some (20/3) ∧
      (20/3 : ℚ) - 5 > 1/1000000000 := by
  refine ⟨?_, ?_, by norm_num⟩
  · norm_num [run_avg, runAvgGo]
  · norm_num [ewm_mean, ewmGo]

/-- Claim C1, amended: the online `run_avg` sequence and the batch
exponential-weighted mean always agree at the first index, and agree at
every index when the center of mass is `0`; for positive center of mass the
two recursions use different normalizers (`min(c, r) + 1` against
`Σ_{i≤r} (c/(c+1))^i`), so parity at every index beyond the first does not
hold — the counterexample shows the two already differ at index 1. -/
theorem online_batch_parity_amended :
    (∀ (xs : List ℚ) (com : ℚ), (run_avg xs com).head? = (ewm_mean xs com).head?) ∧
    (∀ xs : List ℚ, run_avg xs 0 = ewm_mean xs 0) := by
  constructor
  · intro xs com
    cases xs <;> simp [run_avg, ewm_mean]
  · intro xs
    cases xs with
    | nil => rfl
    | cons x xs' =>
      simp only [run_avg, ewm_mean]
      norm_num
      rw [runAvgGo_com_zero xs' x 1 le_rfl, ewmGo_beta_zero xs' x 1]

end ADPM
